import Mathlib

/-!
# Flash programming engine of the IAP bootloader (`Src/flash_if.c`)

A shallow embedding of the five operations of `flash_if.c`
(`FLASH_If_Init`, `FLASH_If_Erase`, `FLASH_If_Write`,
`FLASH_If_DisableWriteProtection`, `FLASH_If_GetWriteProtectionStatus`).

* `uint32_t` values are natural numbers; wrap-around is written out
  (`sub32`, `add32`, `not32`).
* The vendor HAL (`HAL_FLASH_*`, `HAL_FLASHEx_*`) is not part of the source
  tree, so it is a parameter: a record `HAL σ` of transition functions over an
  arbitrary hardware state `σ`.  Every HAL call made by the embedded code is
  appended to a call log, so that statements of the form "no option-byte
  program is issued" can be made about the code for arbitrary hardware.
* The macros coming from missing headers (`USER_FLASH_END_ADDRESS`,
  `FLASH_PAGE_SIZE`, `FLASH_PROTECTED_PAGES`, ...) are fields of `Board`.
-/

namespace FlashIf

/-! ## Machine integers -/

/-- The modulus of `uint32_t` arithmetic. -/
def U32 : Nat := 2 ^ 32

/-- Subtraction of two `uint32_t` values, wrapping like C. -/
def sub32 (a b : Nat) : Nat := (a % U32 + U32 - b % U32) % U32

/-- Addition of two `uint32_t` values, wrapping like C. -/
def add32 (a b : Nat) : Nat := (a + b) % U32

/-- The C operator `~` on a `uint32_t`: bit `p` of the result is set exactly
when `p < 32` and bit `p` of the argument is clear. -/
def not32 (a : Nat) : Nat := (a ^^^ (U32 - 1)) % U32

/-! ## Types of the HAL headers -/

/-- The `HAL_StatusTypeDef` enumeration of the HAL. -/
inductive HAL_StatusTypeDef where
  | HAL_OK
  | HAL_ERROR
  | HAL_BUSY
  | HAL_TIMEOUT
  deriving DecidableEq, Repr

open HAL_StatusTypeDef

/-- The fields of `FLASH_EraseInitTypeDef` that `FLASH_If_Erase` fills in. -/
structure FLASH_EraseInitTypeDef where
  TypeErase : Nat
  PageAddress : Nat
  NbPages : Nat
  deriving DecidableEq, Repr

/-- The fields of `FLASH_OBProgramInitTypeDef` that the code reads or writes. -/
structure FLASH_OBProgramInitTypeDef where
  OptionType : Nat
  WRPState : Nat
  WRPPage : Nat
  RDPLevel : Nat
  USERConfig : Nat
  deriving DecidableEq, Repr

/-- The macros used by `flash_if.c` whose definitions live in headers that are
not part of the source tree.  They are parameters of the embedding. -/
structure Board where
  USER_FLASH_END_ADDRESS : Nat
  FLASH_PAGE_SIZE : Nat
  FLASH_PROTECTED_PAGES : Nat
  FLASH_TYPEERASE_PAGES : Nat
  FLASH_TYPEPROGRAM_WORD : Nat
  FLASH_FLAG_EOP : Nat
  FLASH_FLAG_PGERR : Nat
  FLASH_FLAG_WRPERR : Nat
  OB_WRPSTATE_DISABLE : Nat
  OPTIONBYTE_WRP : Nat
  OB_RDP_LEVEL_0 : Nat

/-! ## The hardware abstraction -/

/-- The HAL entry points called by `flash_if.c`, as transition functions over
an arbitrary hardware state `σ`.  `readWord` is the memory read
`*(uint32_t*)address`; `isLocked` observes the lock bit of the controller. -/
structure HAL (σ : Type) where
  Unlock : σ → σ
  Lock : σ → σ
  ClearFlag : Nat → σ → σ
  Erase : FLASH_EraseInitTypeDef → σ → HAL_StatusTypeDef × Nat × σ
  Program : Nat → Nat → Nat → σ → HAL_StatusTypeDef × σ
  readWord : σ → Nat → Nat
  OBGetConfig : σ → FLASH_OBProgramInitTypeDef
  OBErase : σ → HAL_StatusTypeDef × σ
  OBProgram : FLASH_OBProgramInitTypeDef → σ → HAL_StatusTypeDef × σ
  isLocked : σ → Bool

/-- One HAL call (or flash read) made by the code, with what it returned. -/
inductive Call where
  | unlock
  | lock
  | clearFlag (flags : Nat)
  | erase (pEraseInit : FLASH_EraseInitTypeDef) (status : HAL_StatusTypeDef)
  | program (typeProgram address data : Nat) (status : HAL_StatusTypeDef)
  | readWord (address value : Nat)
  | obGetConfig (config : FLASH_OBProgramInitTypeDef)
  | obErase (status : HAL_StatusTypeDef)
  | obProgram (config : FLASH_OBProgramInitTypeDef) (status : HAL_StatusTypeDef)
  deriving DecidableEq, Repr

/-- The hardware state together with the chronological log of the calls made
so far. -/
structure Machine (σ : Type) where
  hw : σ
  log : List Call

section Primitives

variable {σ : Type} (hal : HAL σ)

/-- `HAL_FLASH_Unlock()`. -/
def HAL_FLASH_Unlock (m : Machine σ) : Machine σ :=
  ⟨hal.Unlock m.hw, m.log ++ [Call.unlock]⟩

/-- `HAL_FLASH_Lock()`. -/
def HAL_FLASH_Lock (m : Machine σ) : Machine σ :=
  ⟨hal.Lock m.hw, m.log ++ [Call.lock]⟩

/-- `__HAL_FLASH_CLEAR_FLAG(flags)`. -/
def HAL_FLASH_CLEAR_FLAG (flags : Nat) (m : Machine σ) : Machine σ :=
  ⟨hal.ClearFlag flags m.hw, m.log ++ [Call.clearFlag flags]⟩

/-- `HAL_FLASHEx_Erase(&pEraseInit, &PageError)`: status, `PageError`, machine. -/
def HAL_FLASHEx_Erase (pEraseInit : FLASH_EraseInitTypeDef) (m : Machine σ) :
    HAL_StatusTypeDef × Nat × Machine σ :=
  let r := hal.Erase pEraseInit m.hw
  (r.1, r.2.1, ⟨r.2.2, m.log ++ [Call.erase pEraseInit r.1]⟩)

/-- `HAL_FLASH_Program(TypeProgram, Address, Data)`. -/
def HAL_FLASH_Program (typeProgram address data : Nat) (m : Machine σ) :
    HAL_StatusTypeDef × Machine σ :=
  let r := hal.Program typeProgram address data m.hw
  (r.1, ⟨r.2, m.log ++ [Call.program typeProgram address data r.1]⟩)

/-- The flash read `*(uint32_t*)address`. -/
def readFlash (address : Nat) (m : Machine σ) : Nat × Machine σ :=
  let v := hal.readWord m.hw address
  (v, ⟨m.hw, m.log ++ [Call.readWord address v]⟩)

/-- `HAL_FLASHEx_OBGetConfig(&config)`. -/
def HAL_FLASHEx_OBGetConfig (m : Machine σ) :
    FLASH_OBProgramInitTypeDef × Machine σ :=
  let c := hal.OBGetConfig m.hw
  (c, ⟨m.hw, m.log ++ [Call.obGetConfig c]⟩)

/-- `HAL_FLASHEx_OBErase()`. -/
def HAL_FLASHEx_OBErase (m : Machine σ) : HAL_StatusTypeDef × Machine σ :=
  let r := hal.OBErase m.hw
  (r.1, ⟨r.2, m.log ++ [Call.obErase r.1]⟩)

/-- `HAL_FLASHEx_OBProgram(&config)`. -/
def HAL_FLASHEx_OBProgram (config : FLASH_OBProgramInitTypeDef) (m : Machine σ) :
    HAL_StatusTypeDef × Machine σ :=
  let r := hal.OBProgram config m.hw
  (r.1, ⟨r.2, m.log ++ [Call.obProgram config r.1]⟩)

end Primitives

/-! ## The operations of `flash_if.c` -/

section Operations

variable {σ : Type} (hal : HAL σ) (b : Board)

/-- `void FLASH_If_Init(void)`. -/
def FLASH_If_Init (m : Machine σ) : Machine σ :=
  let m1 := HAL_FLASH_Unlock hal m
  let m2 := HAL_FLASH_CLEAR_FLAG hal
    (b.FLASH_FLAG_EOP ||| b.FLASH_FLAG_PGERR ||| b.FLASH_FLAG_WRPERR) m1
  HAL_FLASH_Lock hal m2

/-- `uint32_t FLASH_If_Erase(uint32_t StartSector)`: return value and machine. -/
def FLASH_If_Erase (StartSector : Nat) (m : Machine σ) : Nat × Machine σ :=
  let m1 := HAL_FLASH_Unlock hal m
  let NbrOfPages := sub32 b.USER_FLASH_END_ADDRESS StartSector / b.FLASH_PAGE_SIZE
  let pEraseInit : FLASH_EraseInitTypeDef :=
    ⟨b.FLASH_TYPEERASE_PAGES, StartSector, NbrOfPages⟩
  let r := HAL_FLASHEx_Erase hal pEraseInit m1
  let m3 := HAL_FLASH_Lock hal r.2.2
  if r.1 ≠ HAL_OK then (1, m3) else (0, m3)

/-- What `FLASH_If_Write` leaves behind: its return value, the value of
`*FlashAddress` (updated in place by the C code) and the machine. -/
structure WriteResult (σ : Type) where
  ret : Nat
  FlashAddress : Nat
  m : Machine σ

/-- The `for` loop of `FLASH_If_Write` together with the code after it.
`remaining` is `DataLength - i`, so the loop test `i < DataLength` is the
test `remaining ≠ 0`, and `i++` turns `remaining + 1` into `remaining`. -/
def writeLoop (Data : Nat → Nat) :
    (remaining : Nat) → (i : Nat) → (FlashAddress : Nat) → Machine σ → WriteResult σ
  | 0, _, FlashAddress, m => ⟨0, FlashAddress, HAL_FLASH_Lock hal m⟩
  | remaining + 1, i, FlashAddress, m =>
    if FlashAddress ≤ sub32 b.USER_FLASH_END_ADDRESS 4 then
      let p := HAL_FLASH_Program hal b.FLASH_TYPEPROGRAM_WORD FlashAddress (Data i) m
      if p.1 = HAL_OK then
        let rd := readFlash hal FlashAddress p.2
        if rd.1 ≠ Data i then
          ⟨2, FlashAddress, rd.2⟩
        else
          writeLoop Data remaining (i + 1) (add32 FlashAddress 4) rd.2
      else
        ⟨1, FlashAddress, p.2⟩
    else
      ⟨0, FlashAddress, HAL_FLASH_Lock hal m⟩

/-- `uint32_t FLASH_If_Write(__IO uint32_t* FlashAddress, uint32_t* Data,
uint16_t DataLength)`.  `FlashAddress` is the value `*FlashAddress` on entry,
`Data i` is the word `Data[i]`. -/
def FLASH_If_Write (FlashAddress : Nat) (Data : Nat → Nat) (DataLength : Nat)
    (m : Machine σ) : WriteResult σ :=
  writeLoop hal b Data DataLength 0 FlashAddress (HAL_FLASH_Unlock hal m)

/-- `uint32_t FLASH_If_GetWriteProtectionStatus(void)`. -/
def FLASH_If_GetWriteProtectionStatus (m : Machine σ) : Nat × Machine σ :=
  let m1 := HAL_FLASH_Unlock hal m
  let r := HAL_FLASHEx_OBGetConfig hal m1
  let m3 := HAL_FLASH_Lock hal r.2
  (not32 r.1.WRPPage &&& b.FLASH_PROTECTED_PAGES, m3)

/-- `uint32_t FLASH_If_DisableWriteProtection(void)`. -/
def FLASH_If_DisableWriteProtection (m : Machine σ) : Nat × Machine σ :=
  let g := FLASH_If_GetWriteProtectionStatus hal b m
  if g.1 ≠ 0 then
    let o := HAL_FLASHEx_OBGetConfig hal g.2
    let config_old := o.1
    let ProtectedPAGE := config_old.WRPPage ||| b.FLASH_PROTECTED_PAGES
    let e := HAL_FLASHEx_OBErase hal o.2
    let config_new : FLASH_OBProgramInitTypeDef :=
      ⟨b.OPTIONBYTE_WRP, b.OB_WRPSTATE_DISABLE, ProtectedPAGE, b.OB_RDP_LEVEL_0,
        config_old.USERConfig⟩
    let pr := if e.1 = HAL_OK then HAL_FLASHEx_OBProgram hal config_new e.2 else e
    if pr.1 = HAL_OK then (0, pr.2) else (1, pr.2)
  else
    (1, g.2)

end Operations

/-! ## A simulated controller -/

/-- Modelled from the spec: the flash controller and option bytes behind the
HAL, which are not part of the source tree.  The state is the lock bit, the
word memory, the option bytes of the spec's data model
(`protectedPageBitmap`, `readProtectionLevel`, `userConfig`) and switches
that make a primitive report failure (`programFails`, `eraseFails`,
`obEraseFails`, `obProgramFails`) or make a cell keep its old content when
programmed (`stuck`). -/
structure Sim where
  locked : Bool
  mem : Nat → Nat
  protectedPageBitmap : Nat
  readProtectionLevel : Nat
  userConfig : Nat
  programFails : Nat → Bool
  stuck : Nat → Bool
  eraseFails : Bool
  obEraseFails : Bool
  obProgramFails : Bool

/-- Modelled from the spec: the hardware abstraction of the spec's section 6
(unlock, lock, clear-status-flags, erase-pages, program-word, read-word,
read-option-bytes, erase-option-bytes, program-option-bytes) on `Sim`.
Unlock and lock always succeed.  As the spec's glossary says of unlock/lock,
an erase or program command (of the memory or of the option bytes) is
accepted only while the controller is unlocked: issued on a locked
controller it changes nothing and reports the status `rejected` (the spec
does not say which status that is).  On an unlocked controller erase-pages
sets every word of `[PageAddress, PageAddress + NbPages * PageSize)` to
all-ones; program-word stores the word; erase-option-bytes resets the option
bytes to their default (no protection, read-protection level 0);
program-option-bytes writes the configuration, and with the write-protection
state "disable" it removes the pages of `WRPPage` from the protected-page
bitmap. -/
def simHALWith (rejected : HAL_StatusTypeDef) (b : Board) : HAL Sim where
  Unlock s := { s with locked := false }
  Lock s := { s with locked := true }
  ClearFlag _ s := s
  Erase init s :=
    if s.locked then (rejected, init.PageAddress, s)
    else if s.eraseFails then (HAL_StatusTypeDef.HAL_ERROR, init.PageAddress, s)
    else (HAL_StatusTypeDef.HAL_OK, 0xFFFFFFFF,
      { s with mem := fun x =>
          if init.PageAddress ≤ x ∧ x < init.PageAddress + init.NbPages * b.FLASH_PAGE_SIZE
          then 0xFFFFFFFF else s.mem x })
  Program _ address data s :=
    if s.locked then (rejected, s)
    else if s.programFails address then (HAL_StatusTypeDef.HAL_ERROR, s)
    else if s.stuck address then (HAL_StatusTypeDef.HAL_OK, s)
    else (HAL_StatusTypeDef.HAL_OK,
      { s with mem := fun x => if x = address then data else s.mem x })
  readWord s address := s.mem address
  OBGetConfig s := ⟨0, 0, s.protectedPageBitmap, s.readProtectionLevel, s.userConfig⟩
  OBErase s :=
    if s.locked then (rejected, s)
    else if s.obEraseFails then (HAL_StatusTypeDef.HAL_ERROR, s)
    else (HAL_StatusTypeDef.HAL_OK,
      { s with protectedPageBitmap := 0, readProtectionLevel := b.OB_RDP_LEVEL_0,
               userConfig := 0xFF })
  OBProgram config s :=
    if s.locked then (rejected, s)
    else if s.obProgramFails then (HAL_StatusTypeDef.HAL_ERROR, s)
    else (HAL_StatusTypeDef.HAL_OK,
      { s with
        protectedPageBitmap :=
          if config.WRPState = b.OB_WRPSTATE_DISABLE
          then s.protectedPageBitmap &&& not32 config.WRPPage
          else s.protectedPageBitmap ||| config.WRPPage,
        readProtectionLevel := config.RDPLevel,
        userConfig := config.USERConfig })
  isLocked s := s.locked

/-- Modelled from the spec: the simulated controller on which a command that
is not accepted, because the controller is locked, reports `HAL_ERROR`. -/
def simHAL (b : Board) : HAL Sim := simHALWith HAL_StatusTypeDef.HAL_ERROR b

/-- Modelled from the spec: the simulated controller on which a command that
is not accepted, because the controller is locked, is ignored and reports
`HAL_OK`. -/
def simHALSilent (b : Board) : HAL Sim := simHALWith HAL_StatusTypeDef.HAL_OK b

/-- Modelled from the spec: the memory map of the spec's scenarios
(`PageSize = 1024`, `UserFlashEndAddress = 0x8010000`) with a protected-page
mask of four pages; the remaining fields are the values the HAL headers give
to the macros of the same name. -/
def simBoard : Board where
  USER_FLASH_END_ADDRESS := 0x8010000
  FLASH_PAGE_SIZE := 1024
  FLASH_PROTECTED_PAGES := 0xF
  FLASH_TYPEERASE_PAGES := 0
  FLASH_TYPEPROGRAM_WORD := 2
  FLASH_FLAG_EOP := 0x20
  FLASH_FLAG_PGERR := 0x04
  FLASH_FLAG_WRPERR := 0x10
  OB_WRPSTATE_DISABLE := 0
  OPTIONBYTE_WRP := 1
  OB_RDP_LEVEL_0 := 0xAA

/-- Modelled from the spec: a locked controller whose memory is erased
(every word all-ones), with no page protected, read-protection level 0 and
no fault switched on. -/
def simErased : Sim where
  locked := true
  mem := fun _ => 0xFFFFFFFF
  protectedPageBitmap := 0
  readProtectionLevel := 0xAA
  userConfig := 0xFF
  programFails := fun _ => false
  stuck := fun _ => false
  eraseFails := false
  obEraseFails := false
  obProgramFails := false

/-- The erased controller with a fault: programming the word at `address`
reports an error. -/
def simProgramFault (address : Nat) : Sim :=
  { simErased with programFails := fun a => a == address }

/-- The erased controller with a fault: the cell at `address` does not take
the programmed value and keeps reading all-ones. -/
def simStuckCell (address : Nat) : Sim :=
  { simErased with stuck := fun a => a == address }

/-- Modelled from the spec: a controller in use.  Every memory word is
programmed to zero, pages 0, 1 (inside the mask of `simBoard`) and 8, 9
(outside it) are write-protected, the read-protection level is 1 (`0xBB`). -/
def simUsed : Sim :=
  { simErased with
    mem := fun _ => 0
    protectedPageBitmap := 0x303
    readProtectionLevel := 0xBB
    userConfig := 0x55 }

/-- The controller in use with all four pages of the mask of `simBoard`
write-protected (and pages 8, 9 outside it). -/
def simAllProtected : Sim :=
  { simUsed with protectedPageBitmap := 0x30F }

/-- The controller in use with only pages 8, 9, outside the mask of
`simBoard`, write-protected. -/
def simForeignProtected : Sim :=
  { simUsed with protectedPageBitmap := 0x300 }

/-- The controller in use with a fault: the option-byte erase reports an
error. -/
def simOBEraseFault : Sim :=
  { simUsed with obEraseFails := true }

/-- A machine that has made no call yet. -/
def fresh {σ : Type} (s : σ) : Machine σ := ⟨s, []⟩

/-! ## Reading the call log -/

/-- The `HAL_FLASH_Program` calls of a log, in order: address, data word and
returned status. -/
def programCalls : List Call → List (Nat × Nat × HAL_StatusTypeDef)
  | [] => []
  | Call.program _ a d st :: l => (a, d, st) :: programCalls l
  | Call.unlock :: l => programCalls l
  | Call.lock :: l => programCalls l
  | Call.clearFlag _ :: l => programCalls l
  | Call.erase _ _ :: l => programCalls l
  | Call.readWord _ _ :: l => programCalls l
  | Call.obGetConfig _ :: l => programCalls l
  | Call.obErase _ :: l => programCalls l
  | Call.obProgram _ _ :: l => programCalls l

/-- The flash reads of a log, in order: address and value read. -/
def readCalls : List Call → List (Nat × Nat)
  | [] => []
  | Call.readWord a v :: l => (a, v) :: readCalls l
  | Call.unlock :: l => readCalls l
  | Call.lock :: l => readCalls l
  | Call.clearFlag _ :: l => readCalls l
  | Call.erase _ _ :: l => readCalls l
  | Call.program _ _ _ _ :: l => readCalls l
  | Call.obGetConfig _ :: l => readCalls l
  | Call.obErase _ :: l => readCalls l
  | Call.obProgram _ _ :: l => readCalls l

/-- The calls of `k` consecutive loop iterations of `FLASH_If_Write` that
program and verify their word, starting with word `i` at address `a`. -/
def okCalls (T : Nat) (Data : Nat → Nat) : (i a k : Nat) → List Call
  | _, _, 0 => []
  | i, a, k + 1 =>
    Call.program T a (Data i) HAL_StatusTypeDef.HAL_OK :: Call.readWord a (Data i) ::
      okCalls T Data (i + 1) (a + 4) k

/-- The word buffer `B` seen through the pointer `Data`: `Data[i]`. -/
def bufferOf (B : List Nat) : Nat → Nat := fun i => B.getD i 0

/-! ## Arithmetic and log lemmas -/

theorem sub32_of_le {e : Nat} (h4 : 4 ≤ e) (hU : e < 2 ^ 32) : sub32 e 4 = e - 4 := by
  simp only [sub32, U32]
  omega

theorem add32_of_lt {a : Nat} (h : a + 4 < 2 ^ 32) : add32 a 4 = a + 4 := by
  simp only [add32, U32]
  omega

theorem programCalls_append (l1 l2 : List Call) :
    programCalls (l1 ++ l2) = programCalls l1 ++ programCalls l2 := by
  induction l1 with
  | nil => simp [programCalls]
  | cons c l ih => cases c <;> simp [programCalls, ih]

theorem readCalls_append (l1 l2 : List Call) :
    readCalls (l1 ++ l2) = readCalls l1 ++ readCalls l2 := by
  induction l1 with
  | nil => simp [readCalls]
  | cons c l ih => cases c <;> simp [readCalls, ih]

theorem programCalls_okCalls (T : Nat) (Data : Nat → Nat) (i a k : Nat) :
    programCalls (okCalls T Data i a k)
      = (List.range k).map (fun j => (a + 4 * j, Data (i + j), HAL_OK)) := by
  induction k generalizing i a with
  | zero => simp [okCalls, programCalls]
  | succ k ih =>
    rw [okCalls, programCalls, programCalls, ih, List.range_succ_eq_map]
    simp only [List.map_cons, List.map_map, Nat.mul_zero, Nat.add_zero]
    congr 1
    apply List.map_congr_left
    intro j _
    have e1 : a + 4 + 4 * j = a + 4 * (j + 1) := by omega
    have e2 : i + 1 + j = i + (j + 1) := by omega
    simp only [Function.comp_apply, Nat.succ_eq_add_one, e1, e2]

theorem readCalls_okCalls (T : Nat) (Data : Nat → Nat) (i a k : Nat) :
    readCalls (okCalls T Data i a k)
      = (List.range k).map (fun j => (a + 4 * j, Data (i + j))) := by
  induction k generalizing i a with
  | zero => simp [okCalls, readCalls]
  | succ k ih =>
    rw [okCalls, readCalls, readCalls, ih, List.range_succ_eq_map]
    simp only [List.map_cons, List.map_map, Nat.mul_zero, Nat.add_zero]
    congr 1
    apply List.map_congr_left
    intro j _
    have e1 : a + 4 + 4 * j = a + 4 * (j + 1) := by omega
    have e2 : i + 1 + j = i + (j + 1) := by omega
    simp only [Function.comp_apply, Nat.succ_eq_add_one, e1, e2]

/-- The shape of every run of the loop of `FLASH_If_Write`: `k` iterations
program and verify their word, then the run ends in one of three ways. -/
theorem writeLoop_shape {σ : Type} (hal : HAL σ) (b : Board) (Data : Nat → Nat)
    (h4 : 4 ≤ b.USER_FLASH_END_ADDRESS) (hU : b.USER_FLASH_END_ADDRESS < 2 ^ 32) :
    ∀ (r i a : Nat) (m : Machine σ), ∃ (k : Nat) (tail : List Call),
      k ≤ r ∧
      (writeLoop hal b Data r i a m).m.log
        = m.log ++ (okCalls b.FLASH_TYPEPROGRAM_WORD Data i a k ++ tail) ∧
      (writeLoop hal b Data r i a m).FlashAddress = a + 4 * k ∧
      (∀ j, j < k → a + 4 * j ≤ b.USER_FLASH_END_ADDRESS - 4) ∧
      (((writeLoop hal b Data r i a m).ret = 0 ∧ tail = [Call.lock] ∧
          (k = r ∨ b.USER_FLASH_END_ADDRESS - 4 < a + 4 * k)) ∨
        ((writeLoop hal b Data r i a m).ret = 1 ∧ k < r ∧
          a + 4 * k ≤ b.USER_FLASH_END_ADDRESS - 4 ∧
          ∃ st, st ≠ HAL_OK ∧
            tail = [Call.program b.FLASH_TYPEPROGRAM_WORD (a + 4 * k) (Data (i + k)) st]) ∨
        ((writeLoop hal b Data r i a m).ret = 2 ∧ k < r ∧
          a + 4 * k ≤ b.USER_FLASH_END_ADDRESS - 4 ∧
          ∃ v, v ≠ Data (i + k) ∧
            tail = [Call.program b.FLASH_TYPEPROGRAM_WORD (a + 4 * k) (Data (i + k)) HAL_OK,
                    Call.readWord (a + 4 * k) v])) := by
  intro r
  induction r with
  | zero =>
    intro i a m
    refine ⟨0, [Call.lock], le_refl _, ?_, ?_, ?_, Or.inl ⟨?_, rfl, Or.inl rfl⟩⟩
    · simp [writeLoop, HAL_FLASH_Lock, okCalls]
    · simp [writeLoop]
    · intro j hj; omega
    · simp [writeLoop]
  | succ r ih =>
    intro i a m
    have hsub := sub32_of_le h4 hU
    by_cases hb : a ≤ b.USER_FLASH_END_ADDRESS - 4
    · by_cases hp : (hal.Program b.FLASH_TYPEPROGRAM_WORD a (Data i) m.hw).1 = HAL_OK
      · by_cases hv : hal.readWord (hal.Program b.FLASH_TYPEPROGRAM_WORD a (Data i) m.hw).2 a
            = Data i
        · have hadd : add32 a 4 = a + 4 := add32_of_lt (by omega)
          obtain ⟨k, tail, hk, hlog, haddr, hbnd, hcase⟩ :=
            ih (i + 1) (a + 4)
              (readFlash hal a (HAL_FLASH_Program hal b.FLASH_TYPEPROGRAM_WORD a (Data i) m).2).2
          have hstep : writeLoop hal b Data (r + 1) i a m
              = writeLoop hal b Data r (i + 1) (a + 4)
                (readFlash hal a
                  (HAL_FLASH_Program hal b.FLASH_TYPEPROGRAM_WORD a (Data i) m).2).2 := by
            rw [writeLoop]
            simp [hsub, hb, HAL_FLASH_Program, readFlash, hp, hv, hadd]
          have e1 : a + 4 + 4 * k = a + 4 * (k + 1) := by omega
          have e2 : i + 1 + k = i + (k + 1) := by omega
          refine ⟨k + 1, tail, by omega, ?_, ?_, ?_, ?_⟩
          · rw [hstep, hlog]
            simp [HAL_FLASH_Program, readFlash, okCalls, hp, hv]
          · rw [hstep, haddr]; omega
          · intro j hj
            cases j with
            | zero => simpa using hb
            | succ j =>
              have := hbnd j (by omega)
              omega
          · rw [hstep]
            rw [e1, e2] at hcase
            rcases hcase with ⟨h0, ht, hor⟩ | ⟨h1, hlt, hle, hst⟩ | ⟨h2, hlt, hle, hvv⟩
            · refine Or.inl ⟨h0, ht, ?_⟩
              rcases hor with h | h
              · exact Or.inl (by omega)
              · exact Or.inr h
            · exact Or.inr (Or.inl ⟨h1, by omega, hle, hst⟩)
            · exact Or.inr (Or.inr ⟨h2, by omega, hle, hvv⟩)
        · refine ⟨0, [Call.program b.FLASH_TYPEPROGRAM_WORD a (Data i) HAL_OK,
            Call.readWord a (hal.readWord
              (hal.Program b.FLASH_TYPEPROGRAM_WORD a (Data i) m.hw).2 a)],
            Nat.zero_le _, ?_, ?_, ?_, Or.inr (Or.inr ⟨?_, Nat.succ_pos _, by simpa using hb,
              _, hv, by simp⟩)⟩
          · rw [writeLoop]
            simp [hsub, hb, HAL_FLASH_Program, readFlash, hp, hv, okCalls]
          · rw [writeLoop]
            simp [hsub, hb, HAL_FLASH_Program, readFlash, hp, hv]
          · intro j hj; omega
          · rw [writeLoop]
            simp [hsub, hb, HAL_FLASH_Program, readFlash, hp, hv]
      · refine ⟨0, [Call.program b.FLASH_TYPEPROGRAM_WORD a (Data i)
            (hal.Program b.FLASH_TYPEPROGRAM_WORD a (Data i) m.hw).1],
            Nat.zero_le _, ?_, ?_, ?_, Or.inr (Or.inl ⟨?_, Nat.succ_pos _, by simpa using hb,
              _, hp, by simp⟩)⟩
        · rw [writeLoop]
          simp [hsub, hb, HAL_FLASH_Program, hp, okCalls]
        · rw [writeLoop]
          simp [hsub, hb, HAL_FLASH_Program, hp]
        · intro j hj; omega
        · rw [writeLoop]
          simp [hsub, hb, HAL_FLASH_Program, hp]
    · refine ⟨0, [Call.lock], Nat.zero_le _, ?_, ?_, ?_,
        Or.inl ⟨?_, rfl, Or.inr (by omega)⟩⟩
      · rw [writeLoop]
        simp [hsub, hb, HAL_FLASH_Lock, okCalls]
      · rw [writeLoop]
        simp [hsub, hb]
      · intro j hj; omega
      · rw [writeLoop]
        simp [hsub, hb]

theorem getElem?_append_singleton {α : Type} (l : List α) (x y : α) (i : Nat)
    (h : (l ++ [x])[i]? = some y) :
    (i < l.length ∧ l[i]? = some y) ∨ (i = l.length ∧ y = x) := by
  by_cases hi : i < l.length
  · rw [List.getElem?_append_left hi] at h
    exact Or.inl ⟨hi, h⟩
  · rw [List.getElem?_append_right (by omega)] at h
    right
    by_cases h0 : i - l.length = 0
    · rw [h0] at h
      simp at h
      exact ⟨by omega, h.symm⟩
    · obtain ⟨j, hj⟩ := Nat.exists_eq_succ_of_ne_zero h0
      rw [hj] at h
      simp at h

theorem getElem?_map_range {α : Type} (f : Nat → α) (k i : Nat) (y : α)
    (h : ((List.range k).map f)[i]? = some y) : i < k ∧ y = f i := by
  rw [List.getElem?_map] at h
  by_cases hi : i < k
  · rw [List.getElem?_range hi] at h
    simp at h
    exact ⟨hi, h.symm⟩
  · rw [List.getElem?_eq_none (by simpa using hi)] at h
    simp at h

/-- The log of a whole call of `FLASH_If_Write`, from `writeLoop_shape`. -/
theorem FLASH_If_Write_shape {σ : Type} (hal : HAL σ) (b : Board) (s : σ) (A : Nat)
    (Data : Nat → Nat) (n : Nat)
    (h4 : 4 ≤ b.USER_FLASH_END_ADDRESS) (hU : b.USER_FLASH_END_ADDRESS < 2 ^ 32) :
    ∃ (k : Nat) (tail : List Call),
      k ≤ n ∧
      (FLASH_If_Write hal b A Data n (fresh s)).m.log
        = Call.unlock :: (okCalls b.FLASH_TYPEPROGRAM_WORD Data 0 A k ++ tail) ∧
      (FLASH_If_Write hal b A Data n (fresh s)).FlashAddress = A + 4 * k ∧
      (∀ j, j < k → A + 4 * j ≤ b.USER_FLASH_END_ADDRESS - 4) ∧
      (((FLASH_If_Write hal b A Data n (fresh s)).ret = 0 ∧ tail = [Call.lock] ∧
          (k = n ∨ b.USER_FLASH_END_ADDRESS - 4 < A + 4 * k)) ∨
        ((FLASH_If_Write hal b A Data n (fresh s)).ret = 1 ∧ k < n ∧
          A + 4 * k ≤ b.USER_FLASH_END_ADDRESS - 4 ∧
          ∃ st, st ≠ HAL_OK ∧
            tail = [Call.program b.FLASH_TYPEPROGRAM_WORD (A + 4 * k) (Data k) st]) ∨
        ((FLASH_If_Write hal b A Data n (fresh s)).ret = 2 ∧ k < n ∧
          A + 4 * k ≤ b.USER_FLASH_END_ADDRESS - 4 ∧
          ∃ v, v ≠ Data k ∧
            tail = [Call.program b.FLASH_TYPEPROGRAM_WORD (A + 4 * k) (Data k) HAL_OK,
                    Call.readWord (A + 4 * k) v])) := by
  obtain ⟨k, tail, hk, hlog, haddr, hbnd, hcase⟩ :=
    writeLoop_shape hal b Data h4 hU n 0 A (HAL_FLASH_Unlock hal (fresh s))
  simp only [Nat.zero_add] at hcase
  refine ⟨k, tail, hk, ?_, haddr, hbnd, hcase⟩
  rw [FLASH_If_Write, hlog]
  simp [HAL_FLASH_Unlock, fresh]

/-- Claim C2.  In `FLASH_If_Write`, if the program call number `i` reports a
failure, the call returns 1; if the readback number `i` differs from the
source word `Data[i]`, the call returns 2.  In both cases `*FlashAddress` is
left at `start + 4*i`, the words `0..i-1` were programmed successfully, in
buffer order, at `start, start+4, ...`, word `i` was programmed at
`start + 4*i`, and that is the last program call: no word of index greater
than `i` is programmed. -/
theorem FLASH_If_Write_stops_at_first_failure {σ : Type} (hal : HAL σ) (b : Board) (s : σ)
    (A : Nat) (Data : Nat → Nat) (n i : Nat)
    (h4 : 4 ≤ b.USER_FLASH_END_ADDRESS) (hU : b.USER_FLASH_END_ADDRESS < 2 ^ 32) :
    (∀ a d st,
      (programCalls (FLASH_If_Write hal b A Data n (fresh s)).m.log)[i]? = some (a, d, st) →
      st ≠ HAL_OK →
        (FLASH_If_Write hal b A Data n (fresh s)).ret = 1 ∧
        (FLASH_If_Write hal b A Data n (fresh s)).FlashAddress = A + 4 * i ∧
        i < n ∧
        programCalls (FLASH_If_Write hal b A Data n (fresh s)).m.log
          = (List.range i).map (fun k => (A + 4 * k, Data k, HAL_OK))
            ++ [(A + 4 * i, Data i, st)]) ∧
    (∀ a v,
      (readCalls (FLASH_If_Write hal b A Data n (fresh s)).m.log)[i]? = some (a, v) →
      v ≠ Data i →
        (FLASH_If_Write hal b A Data n (fresh s)).ret = 2 ∧
        (FLASH_If_Write hal b A Data n (fresh s)).FlashAddress = A + 4 * i ∧
        i < n ∧
        programCalls (FLASH_If_Write hal b A Data n (fresh s)).m.log
          = (List.range i).map (fun k => (A + 4 * k, Data k, HAL_OK))
            ++ [(A + 4 * i, Data i, HAL_OK)] ∧
        readCalls (FLASH_If_Write hal b A Data n (fresh s)).m.log
          = (List.range i).map (fun k => (A + 4 * k, Data k)) ++ [(A + 4 * i, v)]) := by
  obtain ⟨k, tail, hk, hlog, haddr, hbnd, hcase⟩ := FLASH_If_Write_shape hal b s A Data n h4 hU
  have hP : programCalls (FLASH_If_Write hal b A Data n (fresh s)).m.log
      = (List.range k).map (fun j => (A + 4 * j, Data j, HAL_OK)) ++ programCalls tail := by
    rw [hlog, programCalls, programCalls_append, programCalls_okCalls]
    simp
  have hR : readCalls (FLASH_If_Write hal b A Data n (fresh s)).m.log
      = (List.range k).map (fun j => (A + 4 * j, Data j)) ++ readCalls tail := by
    rw [hlog, readCalls, readCalls_append, readCalls_okCalls]
    simp
  constructor
  · intro a d st hget hst
    rw [hP] at hget
    rcases hcase with ⟨_, ht, _⟩ | ⟨h1, hlt, _, st1, hst1, ht⟩ | ⟨_, _, _, v, _, ht⟩
    · subst ht
      simp only [programCalls, List.append_nil] at hget
      have := (getElem?_map_range _ k i _ hget).2
      simp only [Prod.mk.injEq] at this
      exact absurd this.2.2 hst
    · subst ht
      simp only [programCalls] at hget hP
      rcases getElem?_append_singleton _ _ _ _ hget with ⟨_, h⟩ | ⟨hi, h⟩
      · have := (getElem?_map_range _ k i _ h).2
        simp only [Prod.mk.injEq] at this
        exact absurd this.2.2 hst
      · simp only [List.length_map, List.length_range] at hi
        simp only [Prod.mk.injEq] at h
        subst hi
        obtain ⟨_, _, h3⟩ := h
        subst h3
        exact ⟨h1, haddr, hlt, hP⟩
    · subst ht
      simp only [programCalls] at hget
      rcases getElem?_append_singleton _ _ _ _ hget with ⟨_, h⟩ | ⟨_, h⟩
      · have := (getElem?_map_range _ k i _ h).2
        simp only [Prod.mk.injEq] at this
        exact absurd this.2.2 hst
      · simp only [Prod.mk.injEq] at h
        exact absurd h.2.2 hst
  · intro a v hget hv
    rw [hR] at hget
    rcases hcase with ⟨_, ht, _⟩ | ⟨_, _, _, st1, _, ht⟩ | ⟨h2, hlt, _, v1, hv1, ht⟩
    · subst ht
      simp only [readCalls, List.append_nil] at hget
      have := (getElem?_map_range _ k i _ hget).2
      simp only [Prod.mk.injEq] at this
      exact absurd this.2 hv
    · subst ht
      simp only [readCalls, List.append_nil] at hget
      have := (getElem?_map_range _ k i _ hget).2
      simp only [Prod.mk.injEq] at this
      exact absurd this.2 hv
    · subst ht
      simp only [readCalls] at hget hR
      simp only [programCalls] at hP
      rcases getElem?_append_singleton _ _ _ _ hget with ⟨_, h⟩ | ⟨hi, h⟩
      · have := (getElem?_map_range _ k i _ h).2
        simp only [Prod.mk.injEq] at this
        exact absurd this.2 hv
      · simp only [List.length_map, List.length_range] at hi
        simp only [Prod.mk.injEq] at h
        subst hi
        obtain ⟨_, h3⟩ := h
        subst h3
        exact ⟨h2, haddr, hlt, hP, hR⟩

/-- Claim C2 at concrete inputs: a five-word buffer written at `0x800F800`
where word 1 fails to program (first half) or does not verify (second half,
the spec's scenario C). -/
theorem FLASH_If_Write_stops_at_first_failure_witness :
    (4 ≤ simBoard.USER_FLASH_END_ADDRESS ∧ simBoard.USER_FLASH_END_ADDRESS < 2 ^ 32) ∧
    ((FLASH_If_Write (simHAL simBoard) simBoard 0x800F800 (bufferOf [1, 2, 3, 4, 5]) 5
        (fresh (simProgramFault 0x800F804))).ret = 1 ∧
      (FLASH_If_Write (simHAL simBoard) simBoard 0x800F800 (bufferOf [1, 2, 3, 4, 5]) 5
        (fresh (simProgramFault 0x800F804))).FlashAddress = 0x800F800 + 4 * 1 ∧
      1 < 5 ∧
      programCalls (FLASH_If_Write (simHAL simBoard) simBoard 0x800F800
        (bufferOf [1, 2, 3, 4, 5]) 5 (fresh (simProgramFault 0x800F804))).m.log
        = (List.range 1).map (fun k => (0x800F800 + 4 * k, bufferOf [1, 2, 3, 4, 5] k, HAL_OK))
          ++ [(0x800F800 + 4 * 1, bufferOf [1, 2, 3, 4, 5] 1, HAL_ERROR)]) ∧
    ((FLASH_If_Write (simHAL simBoard) simBoard 0x800F800 (bufferOf [1, 2, 3, 4, 5]) 5
        (fresh (simStuckCell 0x800F804))).ret = 2 ∧
      (FLASH_If_Write (simHAL simBoard) simBoard 0x800F800 (bufferOf [1, 2, 3, 4, 5]) 5
        (fresh (simStuckCell 0x800F804))).FlashAddress = 0x800F800 + 4 * 1 ∧
      1 < 5 ∧
      programCalls (FLASH_If_Write (simHAL simBoard) simBoard 0x800F800
        (bufferOf [1, 2, 3, 4, 5]) 5 (fresh (simStuckCell 0x800F804))).m.log
        = (List.range 1).map (fun k => (0x800F800 + 4 * k, bufferOf [1, 2, 3, 4, 5] k, HAL_OK))
          ++ [(0x800F800 + 4 * 1, bufferOf [1, 2, 3, 4, 5] 1, HAL_OK)] ∧
      readCalls (FLASH_If_Write (simHAL simBoard) simBoard 0x800F800
        (bufferOf [1, 2, 3, 4, 5]) 5 (fresh (simStuckCell 0x800F804))).m.log
        = (List.range 1).map (fun k => (0x800F800 + 4 * k, bufferOf [1, 2, 3, 4, 5] k))
          ++ [(0x800F800 + 4 * 1, 0xFFFFFFFF)]) :=
  ⟨⟨by decide, by decide⟩,
    (FLASH_If_Write_stops_at_first_failure (simHAL simBoard) simBoard
      (simProgramFault 0x800F804) 0x800F800 (bufferOf [1, 2, 3, 4, 5]) 5 1
      (by decide) (by decide)).1 0x800F804 2 HAL_ERROR (by decide) (by decide),
    (FLASH_If_Write_stops_at_first_failure (simHAL simBoard) simBoard
      (simStuckCell 0x800F804) 0x800F800 (bufferOf [1, 2, 3, 4, 5]) 5 1
      (by decide) (by decide)).2 0x800F804 0xFFFFFFFF (by decide) (by decide)⟩

/-- When the loop of `FLASH_If_Write` returns 0 and the remaining words fit
below `USER_FLASH_END_ADDRESS`, every remaining word reads back from the
final hardware state, and the words below the start address are untouched.
The hardware is assumed to leave the words that do not overlap a programmed
word alone, and `HAL_FLASH_Lock` to leave the memory alone. -/
theorem writeLoop_readback {σ : Type} (hal : HAL σ) (b : Board) (Data : Nat → Nat)
    (h4 : 4 ≤ b.USER_FLASH_END_ADDRESS) (hU : b.USER_FLASH_END_ADDRESS < 2 ^ 32)
    (hProg : ∀ T a d t x, x + 4 ≤ a ∨ a + 4 ≤ x →
      hal.readWord (hal.Program T a d t).2 x = hal.readWord t x)
    (hLock : ∀ t x, hal.readWord (hal.Lock t) x = hal.readWord t x) :
    ∀ (r i a : Nat) (m : Machine σ), a + 4 * r ≤ b.USER_FLASH_END_ADDRESS →
      (writeLoop hal b Data r i a m).ret = 0 →
      (∀ j, j < r → hal.readWord (writeLoop hal b Data r i a m).m.hw (a + 4 * j)
          = Data (i + j)) ∧
      (∀ x, x + 4 ≤ a → hal.readWord (writeLoop hal b Data r i a m).m.hw x
          = hal.readWord m.hw x) := by
  intro r
  induction r with
  | zero =>
    intro i a m _ _
    refine ⟨fun j hj => absurd hj (Nat.not_lt_zero j), fun x _ => ?_⟩
    simp [writeLoop, HAL_FLASH_Lock, hLock]
  | succ r ih =>
    intro i a m hfit hret
    have hsub := sub32_of_le h4 hU
    have hb : a ≤ b.USER_FLASH_END_ADDRESS - 4 := by omega
    by_cases hp : (hal.Program b.FLASH_TYPEPROGRAM_WORD a (Data i) m.hw).1 = HAL_OK
    · by_cases hv : hal.readWord (hal.Program b.FLASH_TYPEPROGRAM_WORD a (Data i) m.hw).2 a
          = Data i
      · have hadd : add32 a 4 = a + 4 := add32_of_lt (by omega)
        have hstep : writeLoop hal b Data (r + 1) i a m
            = writeLoop hal b Data r (i + 1) (a + 4)
              (readFlash hal a
                (HAL_FLASH_Program hal b.FLASH_TYPEPROGRAM_WORD a (Data i) m).2).2 := by
          rw [writeLoop]
          simp [hsub, hb, HAL_FLASH_Program, readFlash, hp, hv, hadd]
        rw [hstep] at hret ⊢
        obtain ⟨hin, hout⟩ := ih (i + 1) (a + 4) _ (by omega) hret
        have hhw : (readFlash hal a
            (HAL_FLASH_Program hal b.FLASH_TYPEPROGRAM_WORD a (Data i) m).2).2.hw
            = (hal.Program b.FLASH_TYPEPROGRAM_WORD a (Data i) m.hw).2 := rfl
        rw [hhw] at hout
        constructor
        · intro j hj
          cases j with
          | zero =>
            simp only [Nat.mul_zero, Nat.add_zero]
            rw [hout a (le_refl _), hv]
          | succ j =>
            have := hin j (by omega)
            have e1 : a + 4 + 4 * j = a + 4 * (j + 1) := by omega
            have e2 : i + 1 + j = i + (j + 1) := by omega
            rw [e1, e2] at this
            exact this
        · intro x hx
          rw [hout x (by omega), hProg _ _ _ _ _ (Or.inl hx)]
      · exfalso
        rw [writeLoop] at hret
        simp [hsub, hb, HAL_FLASH_Program, readFlash, hp, hv] at hret
    · exfalso
      rw [writeLoop] at hret
      simp [hsub, hb, HAL_FLASH_Program, hp] at hret

/-- Claim C3.  If the buffer `B` fits below `USER_FLASH_END_ADDRESS`
(`A + 4*len(B) <= USER_FLASH_END_ADDRESS`) and `FLASH_If_Write(A, B)` returns
0, then all `len(B)` words were programmed, at `A, A+4, ...` in buffer order,
`*FlashAddress` ends at `A + 4*len(B)`, and reading `len(B)` words back from
`A` yields exactly `B`.  The hardware is any HAL whose word program leaves the
words it does not overlap alone and whose lock leaves the memory alone. -/
theorem FLASH_If_Write_success_reads_back {σ : Type} (hal : HAL σ) (b : Board) (s : σ)
    (A : Nat) (B : List Nat)
    (hU : b.USER_FLASH_END_ADDRESS < 2 ^ 32)
    (hfit : A + 4 * B.length ≤ b.USER_FLASH_END_ADDRESS)
    (hProg : ∀ T a d t x, x + 4 ≤ a ∨ a + 4 ≤ x →
      hal.readWord (hal.Program T a d t).2 x = hal.readWord t x)
    (hLock : ∀ t x, hal.readWord (hal.Lock t) x = hal.readWord t x)
    (hret : (FLASH_If_Write hal b A (bufferOf B) B.length (fresh s)).ret = 0) :
    (FLASH_If_Write hal b A (bufferOf B) B.length (fresh s)).FlashAddress
      = A + 4 * B.length ∧
    programCalls (FLASH_If_Write hal b A (bufferOf B) B.length (fresh s)).m.log
      = (List.range B.length).map (fun k => (A + 4 * k, bufferOf B k, HAL_OK)) ∧
    (List.range B.length).map
      (fun k => hal.readWord
        (FLASH_If_Write hal b A (bufferOf B) B.length (fresh s)).m.hw (A + 4 * k)) = B := by
  by_cases hlen : B.length = 0
  · have hB : B = [] := List.length_eq_zero.mp hlen
    subst hB
    simp [FLASH_If_Write, writeLoop, HAL_FLASH_Lock, HAL_FLASH_Unlock, fresh, programCalls]
  · have h4 : 4 ≤ b.USER_FLASH_END_ADDRESS := by omega
    obtain ⟨k, tail, hk, hlog, haddr, hbnd, hcase⟩ :=
      FLASH_If_Write_shape hal b s A (bufferOf B) B.length h4 hU
    have hread := (writeLoop_readback hal b (bufferOf B) h4 hU hProg hLock B.length 0 A
      (HAL_FLASH_Unlock hal (fresh s)) hfit hret).1
    rcases hcase with ⟨_, ht, hor⟩ | ⟨h1, _⟩ | ⟨h2, _⟩
    · have hkn : k = B.length := by
        rcases hor with h | h
        · exact h
        · omega
      subst ht
      refine ⟨by rw [haddr, hkn], ?_, ?_⟩
      · rw [hlog, programCalls, programCalls_append, programCalls_okCalls, hkn]
        simp [programCalls]
      · apply List.ext_getElem (by simp)
        intro j h1 h2
        have hj := hread j h2
        simp only [Nat.zero_add] at hj
        simp only [List.getElem_map, List.getElem_range]
        rw [FLASH_If_Write, hj, bufferOf, List.getD_eq_getElem _ _ h2]
    · rw [hret] at h1
      exact absurd h1 (by decide)
    · rw [hret] at h2
      exact absurd h2 (by decide)

/-- On the simulated controller a word program leaves every other word alone. -/
theorem simHAL_program_frame (b : Board) (T a d : Nat) (t : Sim) (x : Nat)
    (h : x + 4 ≤ a ∨ a + 4 ≤ x) :
    (simHAL b).readWord ((simHAL b).Program T a d t).2 x = (simHAL b).readWord t x := by
  have hne : x ≠ a := by omega
  simp only [simHAL, simHALWith]
  split_ifs <;> simp [hne]

/-- Claim C3 at the spec's scenario B: two words written at `0x800F800` on
erased memory. -/
theorem FLASH_If_Write_success_reads_back_witness :
    (simBoard.USER_FLASH_END_ADDRESS < 2 ^ 32 ∧
      0x800F800 + 4 * [0xAAAAAAAA, 0xBBBBBBBB].length ≤ simBoard.USER_FLASH_END_ADDRESS ∧
      (FLASH_If_Write (simHAL simBoard) simBoard 0x800F800
        (bufferOf [0xAAAAAAAA, 0xBBBBBBBB]) 2 (fresh simErased)).ret = 0) ∧
    ((FLASH_If_Write (simHAL simBoard) simBoard 0x800F800
        (bufferOf [0xAAAAAAAA, 0xBBBBBBBB]) 2 (fresh simErased)).FlashAddress = 0x800F808 ∧
      programCalls (FLASH_If_Write (simHAL simBoard) simBoard 0x800F800
        (bufferOf [0xAAAAAAAA, 0xBBBBBBBB]) 2 (fresh simErased)).m.log
        = [(0x800F800, 0xAAAAAAAA, HAL_OK), (0x800F804, 0xBBBBBBBB, HAL_OK)] ∧
      [(simHAL simBoard).readWord (FLASH_If_Write (simHAL simBoard) simBoard 0x800F800
          (bufferOf [0xAAAAAAAA, 0xBBBBBBBB]) 2 (fresh simErased)).m.hw 0x800F800,
        (simHAL simBoard).readWord (FLASH_If_Write (simHAL simBoard) simBoard 0x800F800
          (bufferOf [0xAAAAAAAA, 0xBBBBBBBB]) 2 (fresh simErased)).m.hw 0x800F804]
        = [0xAAAAAAAA, 0xBBBBBBBB]) :=
  ⟨⟨by decide, by decide, by decide⟩,
    FLASH_If_Write_success_reads_back (simHAL simBoard) simBoard simErased 0x800F800
      [0xAAAAAAAA, 0xBBBBBBBB] (by decide) (by decide) (simHAL_program_frame simBoard)
      (fun _ _ => rfl) (by decide)⟩

/-- Claim C4.  `FLASH_If_Write` never programs a word at an address greater
than `USER_FLASH_END_ADDRESS - 4`.  When no program call fails and every
readback matches, it returns 0 and has programmed exactly the leading words
that fit below the boundary, `min(DataLength, (USER_FLASH_END_ADDRESS - A)/4)`
of them, in buffer order; when the buffer does not fit
(`USER_FLASH_END_ADDRESS < A + 4*DataLength`, `DataLength > 0`) that number
is smaller than `DataLength`, the remaining words are dropped and the result
is still 0. -/
theorem FLASH_If_Write_truncates_at_boundary {σ : Type} (hal : HAL σ) (b : Board) (s : σ)
    (A : Nat) (Data : Nat → Nat) (n : Nat)
    (h4 : 4 ≤ b.USER_FLASH_END_ADDRESS) (hU : b.USER_FLASH_END_ADDRESS < 2 ^ 32) :
    (∀ e, e ∈ programCalls (FLASH_If_Write hal b A Data n (fresh s)).m.log →
      e.1 ≤ b.USER_FLASH_END_ADDRESS - 4) ∧
    ((∀ e, e ∈ programCalls (FLASH_If_Write hal b A Data n (fresh s)).m.log →
        e.2.2 = HAL_OK) →
      (∀ i a v, (readCalls (FLASH_If_Write hal b A Data n (fresh s)).m.log)[i]? = some (a, v) →
        v = Data i) →
      (FLASH_If_Write hal b A Data n (fresh s)).ret = 0 ∧
      programCalls (FLASH_If_Write hal b A Data n (fresh s)).m.log
        = (List.range (min n ((b.USER_FLASH_END_ADDRESS - A) / 4))).map
            (fun k => (A + 4 * k, Data k, HAL_OK)) ∧
      (FLASH_If_Write hal b A Data n (fresh s)).FlashAddress
        = A + 4 * min n ((b.USER_FLASH_END_ADDRESS - A) / 4) ∧
      (b.USER_FLASH_END_ADDRESS < A + 4 * n →
        min n ((b.USER_FLASH_END_ADDRESS - A) / 4) = (b.USER_FLASH_END_ADDRESS - A) / 4 ∧
        (0 < n → (b.USER_FLASH_END_ADDRESS - A) / 4 < n))) := by
  obtain ⟨k, tail, hk, hlog, haddr, hbnd, hcase⟩ := FLASH_If_Write_shape hal b s A Data n h4 hU
  have hP : programCalls (FLASH_If_Write hal b A Data n (fresh s)).m.log
      = (List.range k).map (fun j => (A + 4 * j, Data j, HAL_OK)) ++ programCalls tail := by
    rw [hlog, programCalls, programCalls_append, programCalls_okCalls]
    simp
  have hR : readCalls (FLASH_If_Write hal b A Data n (fresh s)).m.log
      = (List.range k).map (fun j => (A + 4 * j, Data j)) ++ readCalls tail := by
    rw [hlog, readCalls, readCalls_append, readCalls_okCalls]
    simp
  have htail : ∀ e, e ∈ programCalls tail → e.1 ≤ b.USER_FLASH_END_ADDRESS - 4 := by
    intro e he
    rcases hcase with ⟨_, ht, _⟩ | ⟨_, _, hle, st, _, ht⟩ | ⟨_, _, hle, v, _, ht⟩
    · subst ht; simp [programCalls] at he
    · subst ht; simp only [programCalls, List.mem_singleton] at he; subst he; exact hle
    · subst ht; simp only [programCalls, List.mem_singleton] at he; subst he; exact hle
  constructor
  · intro e he
    rw [hP, List.mem_append] at he
    rcases he with he | he
    · rw [List.mem_map] at he
      obtain ⟨j, hj, rfl⟩ := he
      exact hbnd j (List.mem_range.mp hj)
    · exact htail e he
  · intro hok hmatch
    rcases hcase with ⟨h0, ht, hor⟩ | ⟨_, _, _, st, hst, ht⟩ | ⟨_, _, _, v, hv, ht⟩
    · subst ht
      have hkK : k = min n ((b.USER_FLASH_END_ADDRESS - A) / 4) := by
        by_cases hk0 : k = 0
        · subst hk0
          rcases hor with h | h
          · subst h; simp
          · have : (b.USER_FLASH_END_ADDRESS - A) / 4 = 0 := by omega
            rw [this]; simp
        · have := hbnd (k - 1) (by omega)
          rcases hor with h | h
          · rw [Nat.min_def]; split <;> omega
          · rw [Nat.min_def]; split <;> omega
      refine ⟨h0, ?_, ?_, ?_⟩
      · rw [hP, ← hkK]; simp [programCalls]
      · rw [haddr, ← hkK]
      · intro hno
        refine ⟨?_, fun hn => by omega⟩
        rw [Nat.min_def]; split <;> omega
    · exfalso
      subst ht
      have := hok (A + 4 * k, Data k, st) (by rw [hP]; simp [programCalls])
      exact hst this
    · exfalso
      subst ht
      have := hmatch k (A + 4 * k) v (by
        rw [hR]
        simp only [readCalls]
        rw [List.getElem?_append_right (by simp)]
        simp)
      exact hv this

/-- Claim C4 at a concrete input: three words written at
`USER_FLASH_END_ADDRESS - 8` on the erased controller; two words fit, the
third is dropped and the call returns 0. -/
theorem FLASH_If_Write_truncates_at_boundary_witness :
    (4 ≤ simBoard.USER_FLASH_END_ADDRESS ∧ simBoard.USER_FLASH_END_ADDRESS < 2 ^ 32 ∧
      simBoard.USER_FLASH_END_ADDRESS < 0x800FFF8 + 4 * 3) ∧
    (∀ e, e ∈ programCalls (FLASH_If_Write (simHAL simBoard) simBoard 0x800FFF8
        (bufferOf [1, 2, 3]) 3 (fresh simErased)).m.log →
      e.1 ≤ simBoard.USER_FLASH_END_ADDRESS - 4) ∧
    (FLASH_If_Write (simHAL simBoard) simBoard 0x800FFF8
        (bufferOf [1, 2, 3]) 3 (fresh simErased)).ret = 0 ∧
    programCalls (FLASH_If_Write (simHAL simBoard) simBoard 0x800FFF8
        (bufferOf [1, 2, 3]) 3 (fresh simErased)).m.log
      = [(0x800FFF8, 1, HAL_OK), (0x800FFFC, 2, HAL_OK)] ∧
    (FLASH_If_Write (simHAL simBoard) simBoard 0x800FFF8
        (bufferOf [1, 2, 3]) 3 (fresh simErased)).FlashAddress = 0x8010000 := by
  have h := FLASH_If_Write_truncates_at_boundary (simHAL simBoard) simBoard simErased
    0x800FFF8 (bufferOf [1, 2, 3]) 3 (by decide) (by decide)
  have hR : readCalls (FLASH_If_Write (simHAL simBoard) simBoard 0x800FFF8
      (bufferOf [1, 2, 3]) 3 (fresh simErased)).m.log
      = [(0x800FFF8, 1), (0x800FFFC, 2)] := by decide
  have h2 := h.2 (by decide) (by
    intro i a v hget
    rw [hR] at hget
    rcases i with _ | _ | i
    · simp only [List.getElem?_cons_zero, Option.some.injEq, Prod.mk.injEq] at hget
      rw [← hget.2]; rfl
    · simp only [List.getElem?_cons_succ, List.getElem?_cons_zero, Option.some.injEq,
        Prod.mk.injEq] at hget
      rw [← hget.2]; rfl
    · simp at hget)
  exact ⟨⟨by decide, by decide, by decide⟩, h.1, h2.1, h2.2.1, h2.2.2.1⟩

theorem sub32_of_le_of_lt {e a : Nat} (hle : a ≤ e) (hU : e < 2 ^ 32) :
    sub32 e a = e - a := by
  simp only [sub32, U32]
  omega

/-- Claim C5.  For a page-aligned `StartSector <= USER_FLASH_END_ADDRESS`
(with `USER_FLASH_END_ADDRESS` page-aligned), `FLASH_If_Erase` makes exactly
the calls unlock, one erase-pages command with `PageAddress = StartSector`
and `NbPages = (USER_FLASH_END_ADDRESS - StartSector) / FLASH_PAGE_SIZE`,
lock; it returns 0 exactly when that command reports `HAL_OK`.  On hardware
whose successful erase-pages command leaves all-ones in
`[PageAddress, PageAddress + NbPages * FLASH_PAGE_SIZE)` and does not touch
the words below `PageAddress` (and whose unlock and lock leave the memory
alone), a return value 0 means that every word of
`[StartSector, USER_FLASH_END_ADDRESS)` reads all-ones and every word below
`StartSector` reads as before.  For `FLASH_PAGE_SIZE = 1024`,
`USER_FLASH_END_ADDRESS = 0x8010000` and `StartSector = 0x800F800` the page
count is 2. -/
theorem FLASH_If_Erase_covers_user_flash {σ : Type} (hal : HAL σ) (b : Board) (s : σ)
    (StartSector : Nat)
    (_ : 0 < b.FLASH_PAGE_SIZE)
    (hStart : b.FLASH_PAGE_SIZE ∣ StartSector)
    (hEnd : b.FLASH_PAGE_SIZE ∣ b.USER_FLASH_END_ADDRESS)
    (hle : StartSector ≤ b.USER_FLASH_END_ADDRESS)
    (hU : b.USER_FLASH_END_ADDRESS < 2 ^ 32)
    (hErase : ∀ (init : FLASH_EraseInitTypeDef) (t : σ),
      init.TypeErase = b.FLASH_TYPEERASE_PAGES → (hal.Erase init t).1 = HAL_OK →
      ∀ x, (init.PageAddress ≤ x →
              x < init.PageAddress + init.NbPages * b.FLASH_PAGE_SIZE →
              hal.readWord (hal.Erase init t).2.2 x = 0xFFFFFFFF) ∧
           (x < init.PageAddress →
              hal.readWord (hal.Erase init t).2.2 x = hal.readWord t x))
    (hUnlock : ∀ t x, hal.readWord (hal.Unlock t) x = hal.readWord t x)
    (hLock : ∀ t x, hal.readWord (hal.Lock t) x = hal.readWord t x) :
    (∃ st,
      (FLASH_If_Erase hal b StartSector (fresh s)).2.log
        = [Call.unlock,
           Call.erase ⟨b.FLASH_TYPEERASE_PAGES, StartSector,
             (b.USER_FLASH_END_ADDRESS - StartSector) / b.FLASH_PAGE_SIZE⟩ st,
           Call.lock] ∧
      ((FLASH_If_Erase hal b StartSector (fresh s)).1 = 0 ↔ st = HAL_OK)) ∧
    ((FLASH_If_Erase hal b StartSector (fresh s)).1 = 0 →
      (∀ x, StartSector ≤ x → x < b.USER_FLASH_END_ADDRESS →
        hal.readWord (FLASH_If_Erase hal b StartSector (fresh s)).2.hw x = 0xFFFFFFFF) ∧
      (∀ x, x < StartSector →
        hal.readWord (FLASH_If_Erase hal b StartSector (fresh s)).2.hw x
          = hal.readWord s x)) ∧
    (b.FLASH_PAGE_SIZE = 1024 → b.USER_FLASH_END_ADDRESS = 0x8010000 →
      StartSector = 0x800F800 →
      (b.USER_FLASH_END_ADDRESS - StartSector) / b.FLASH_PAGE_SIZE = 2) := by
  have hsub := sub32_of_le_of_lt hle hU
  have hcover : StartSector
      + (b.USER_FLASH_END_ADDRESS - StartSector) / b.FLASH_PAGE_SIZE * b.FLASH_PAGE_SIZE
      = b.USER_FLASH_END_ADDRESS := by
    rw [Nat.div_mul_cancel ((Nat.dvd_sub' hEnd hStart))]
    omega
  refine ⟨⟨(hal.Erase ⟨b.FLASH_TYPEERASE_PAGES, StartSector,
      (b.USER_FLASH_END_ADDRESS - StartSector) / b.FLASH_PAGE_SIZE⟩ (hal.Unlock s)).1,
      ?_, ?_⟩, ?_, ?_⟩
  · simp only [FLASH_If_Erase, hsub, HAL_FLASHEx_Erase, HAL_FLASH_Unlock, HAL_FLASH_Lock,
      fresh]
    split <;> simp
  · simp only [FLASH_If_Erase, hsub, HAL_FLASHEx_Erase, HAL_FLASH_Unlock, HAL_FLASH_Lock,
      fresh]
    split <;> simp_all
  · intro hret
    have hst : (hal.Erase ⟨b.FLASH_TYPEERASE_PAGES, StartSector,
        (b.USER_FLASH_END_ADDRESS - StartSector) / b.FLASH_PAGE_SIZE⟩ (hal.Unlock s)).1
        = HAL_OK := by
      simp only [FLASH_If_Erase, hsub, HAL_FLASHEx_Erase, HAL_FLASH_Unlock, HAL_FLASH_Lock,
        fresh] at hret
      split at hret <;> simp_all
    have hhw : (FLASH_If_Erase hal b StartSector (fresh s)).2.hw
        = hal.Lock (hal.Erase ⟨b.FLASH_TYPEERASE_PAGES, StartSector,
          (b.USER_FLASH_END_ADDRESS - StartSector) / b.FLASH_PAGE_SIZE⟩ (hal.Unlock s)).2.2 := by
      simp only [FLASH_If_Erase, hsub, HAL_FLASHEx_Erase, HAL_FLASH_Unlock, HAL_FLASH_Lock,
        fresh]
      split <;> rfl
    rw [hhw]
    constructor
    · intro x h1 h2
      rw [hLock]
      exact (hErase _ _ rfl hst x).1 h1 (by simpa [hcover] using h2)
    · intro x h1
      rw [hLock, (hErase _ _ rfl hst x).2 h1, hUnlock]
  · intro h1 h2 h3
    rw [h1, h2, h3]

/-- On the simulated controller a successful erase-pages command leaves
all-ones in the erased range and does not touch the words below it. -/
theorem simHAL_erase_effect (b : Board) (init : FLASH_EraseInitTypeDef) (t : Sim)
    (_ : init.TypeErase = b.FLASH_TYPEERASE_PAGES)
    (hst : ((simHAL b).Erase init t).1 = HAL_OK) (x : Nat) :
    (init.PageAddress ≤ x →
        x < init.PageAddress + init.NbPages * b.FLASH_PAGE_SIZE →
        (simHAL b).readWord ((simHAL b).Erase init t).2.2 x = 0xFFFFFFFF) ∧
    (x < init.PageAddress →
        (simHAL b).readWord ((simHAL b).Erase init t).2.2 x = (simHAL b).readWord t x) := by
  simp only [simHAL, simHALWith] at hst ⊢
  by_cases hl : t.locked = true
  · simp [hl] at hst
  by_cases hf : t.eraseFails = true
  · simp [hl, hf] at hst
  · simp only [hl, hf, Bool.false_eq_true, if_false]
    constructor
    · intro h1 h2
      simp [h1, h2]
    · intro h1
      have : ¬ init.PageAddress ≤ x := by omega
      simp [this]

/-- Claim C5 at the spec's scenario A: `FLASH_If_Erase(0x800F800)` with
`FLASH_PAGE_SIZE = 1024` and `USER_FLASH_END_ADDRESS = 0x8010000` issues one
erase command of 2 pages, returns 0, the word at `0x800FFFC` reads all-ones
and the word at `0x800F7FC` reads as before. -/
theorem FLASH_If_Erase_covers_user_flash_witness :
    (0 < simBoard.FLASH_PAGE_SIZE ∧ simBoard.FLASH_PAGE_SIZE ∣ 0x800F800 ∧
      simBoard.FLASH_PAGE_SIZE ∣ simBoard.USER_FLASH_END_ADDRESS ∧
      0x800F800 ≤ simBoard.USER_FLASH_END_ADDRESS ∧
      simBoard.USER_FLASH_END_ADDRESS < 2 ^ 32) ∧
    (FLASH_If_Erase (simHAL simBoard) simBoard 0x800F800 (fresh simUsed)).2.log
      = [Call.unlock, Call.erase ⟨0, 0x800F800, 2⟩ HAL_OK, Call.lock] ∧
    (FLASH_If_Erase (simHAL simBoard) simBoard 0x800F800 (fresh simUsed)).1 = 0 ∧
    (simHAL simBoard).readWord
      (FLASH_If_Erase (simHAL simBoard) simBoard 0x800F800 (fresh simUsed)).2.hw
      0x800FFFC = 0xFFFFFFFF ∧
    (simHAL simBoard).readWord
      (FLASH_If_Erase (simHAL simBoard) simBoard 0x800F800 (fresh simUsed)).2.hw
      0x800F7FC = (simHAL simBoard).readWord simUsed 0x800F7FC ∧
    (simBoard.USER_FLASH_END_ADDRESS - 0x800F800) / simBoard.FLASH_PAGE_SIZE = 2 := by
  have h := FLASH_If_Erase_covers_user_flash (simHAL simBoard) simBoard simUsed
    0x800F800 (by decide) (by decide) (by decide) (by decide) (by decide)
    (simHAL_erase_effect simBoard) (fun _ _ => rfl) (fun _ _ => rfl)
  exact ⟨⟨by decide, by decide, by decide, by decide, by decide⟩, by decide, by decide,
    (h.2.1 (by decide)).1 0x800FFFC (by decide) (by decide),
    (h.2.1 (by decide)).2 0x800F7FC (by decide), h.2.2 rfl rfl rfl⟩

theorem testBit_not32 (w p : Nat) :
    (not32 w).testBit p = (decide (p < 32) && !w.testBit p) := by
  have h : U32 = 2 ^ 32 := rfl
  rw [not32, h, Nat.testBit_mod_two_pow, Nat.testBit_xor, Nat.testBit_two_pow_sub_one]
  by_cases hp : p < 32 <;> simp [hp]

theorem testBit_of_lt_u32 {M p : Nat} (hM : M < 2 ^ 32) (h : M.testBit p = true) : p < 32 := by
  by_contra hp
  have hlt : M < 2 ^ p := lt_of_lt_of_le hM (Nat.pow_le_pow_right (by decide) (by omega))
  rw [Nat.testBit_lt_two_pow hlt] at h
  exact Bool.false_ne_true h

/-- Claim C10.  `FLASH_If_GetWriteProtectionStatus` returns
`~WRPPage & FLASH_PROTECTED_PAGES`, where `WRPPage` is the protected-page
bitmap of the current option bytes: bit `p` of the result is set exactly when
bit `p` of `FLASH_PROTECTED_PAGES` is set and bit `p` of the bitmap is clear,
so the result is a subset of `FLASH_PROTECTED_PAGES`.  The call always
returns a value (it has no status), it makes the calls unlock,
read-option-bytes, lock and nothing else, and the option bytes read the same
afterwards.  Unlock and lock are assumed not to change the option bytes. -/
theorem FLASH_If_GetWriteProtectionStatus_value {σ : Type} (hal : HAL σ) (b : Board) (s : σ)
    (hM : b.FLASH_PROTECTED_PAGES < 2 ^ 32)
    (hUnlock : ∀ t, hal.OBGetConfig (hal.Unlock t) = hal.OBGetConfig t)
    (hLock : ∀ t, hal.OBGetConfig (hal.Lock t) = hal.OBGetConfig t) :
    (FLASH_If_GetWriteProtectionStatus hal b (fresh s)).1
      = not32 (hal.OBGetConfig s).WRPPage &&& b.FLASH_PROTECTED_PAGES ∧
    (∀ p, ((FLASH_If_GetWriteProtectionStatus hal b (fresh s)).1).testBit p
      = (b.FLASH_PROTECTED_PAGES.testBit p && !(hal.OBGetConfig s).WRPPage.testBit p)) ∧
    (FLASH_If_GetWriteProtectionStatus hal b (fresh s)).1 &&& b.FLASH_PROTECTED_PAGES
      = (FLASH_If_GetWriteProtectionStatus hal b (fresh s)).1 ∧
    (FLASH_If_GetWriteProtectionStatus hal b (fresh s)).2.log
      = [Call.unlock, Call.obGetConfig (hal.OBGetConfig s), Call.lock] ∧
    hal.OBGetConfig (FLASH_If_GetWriteProtectionStatus hal b (fresh s)).2.hw
      = hal.OBGetConfig s := by
  have hval : (FLASH_If_GetWriteProtectionStatus hal b (fresh s)).1
      = not32 (hal.OBGetConfig s).WRPPage &&& b.FLASH_PROTECTED_PAGES := by
    simp [FLASH_If_GetWriteProtectionStatus, HAL_FLASHEx_OBGetConfig, HAL_FLASH_Unlock,
      fresh, hUnlock]
  refine ⟨hval, ?_, ?_, ?_, ?_⟩
  · intro p
    rw [hval, Nat.testBit_land, testBit_not32]
    by_cases hp : b.FLASH_PROTECTED_PAGES.testBit p = true
    · have := testBit_of_lt_u32 hM hp
      simp [hp, this]
    · simp [hp]
  · rw [hval]
    apply Nat.eq_of_testBit_eq
    intro p
    simp only [Nat.testBit_land, Bool.and_assoc, Bool.and_self]
  · simp [FLASH_If_GetWriteProtectionStatus, HAL_FLASHEx_OBGetConfig, HAL_FLASH_Unlock,
      HAL_FLASH_Lock, fresh, hUnlock]
  · simp [FLASH_If_GetWriteProtectionStatus, HAL_FLASHEx_OBGetConfig, HAL_FLASH_Unlock,
      HAL_FLASH_Lock, fresh, hUnlock, hLock]

/-- Claim C10 on the simulated controller in use (pages 0, 1, 8, 9 protected,
mask `0xF`): the status is `0xC`, pages 2 and 3 of the mask are unprotected. -/
theorem FLASH_If_GetWriteProtectionStatus_value_witness :
    simBoard.FLASH_PROTECTED_PAGES < 2 ^ 32 ∧
    (FLASH_If_GetWriteProtectionStatus (simHAL simBoard) simBoard (fresh simUsed)).1 = 0xC ∧
    (FLASH_If_GetWriteProtectionStatus (simHAL simBoard) simBoard (fresh simUsed)).2.log
      = [Call.unlock, Call.obGetConfig ⟨0, 0, 0x303, 0xBB, 0x55⟩, Call.lock] ∧
    (simHAL simBoard).OBGetConfig
        (FLASH_If_GetWriteProtectionStatus (simHAL simBoard) simBoard (fresh simUsed)).2.hw
      = (simHAL simBoard).OBGetConfig simUsed := by
  have h := FLASH_If_GetWriteProtectionStatus_value (simHAL simBoard) simBoard simUsed
    (by decide) (fun _ => rfl) (fun _ => rfl)
  exact ⟨by decide, h.1.trans (by decide), h.2.2.2.1, h.2.2.2.2⟩

/-- The three ways `FLASH_If_DisableWriteProtection` runs: the status query
returns 0 and nothing else is done; the option-byte erase fails and nothing is
programmed; the option-byte erase succeeds and `config_new` is programmed. -/
theorem FLASH_If_DisableWriteProtection_cases {σ : Type} (hal : HAL σ) (b : Board) (s : σ) :
    ((FLASH_If_GetWriteProtectionStatus hal b (fresh s)).1 = 0 ∧
      FLASH_If_DisableWriteProtection hal b (fresh s)
        = (1, (FLASH_If_GetWriteProtectionStatus hal b (fresh s)).2)) ∨
    ((FLASH_If_GetWriteProtectionStatus hal b (fresh s)).1 ≠ 0 ∧
      (hal.OBErase (hal.Lock (hal.Unlock s))).1 ≠ HAL_OK ∧
      FLASH_If_DisableWriteProtection hal b (fresh s)
        = (1, ⟨(hal.OBErase (hal.Lock (hal.Unlock s))).2,
            [Call.unlock, Call.obGetConfig (hal.OBGetConfig (hal.Unlock s)), Call.lock,
             Call.obGetConfig (hal.OBGetConfig (hal.Lock (hal.Unlock s))),
             Call.obErase (hal.OBErase (hal.Lock (hal.Unlock s))).1]⟩)) ∨
    ((FLASH_If_GetWriteProtectionStatus hal b (fresh s)).1 ≠ 0 ∧
      (hal.OBErase (hal.Lock (hal.Unlock s))).1 = HAL_OK ∧
      ∃ st hw,
        (st, hw) = hal.OBProgram
          ⟨b.OPTIONBYTE_WRP, b.OB_WRPSTATE_DISABLE,
            (hal.OBGetConfig (hal.Lock (hal.Unlock s))).WRPPage ||| b.FLASH_PROTECTED_PAGES,
            b.OB_RDP_LEVEL_0, (hal.OBGetConfig (hal.Lock (hal.Unlock s))).USERConfig⟩
          (hal.OBErase (hal.Lock (hal.Unlock s))).2 ∧
        FLASH_If_DisableWriteProtection hal b (fresh s)
          = (if st = HAL_OK then 0 else 1, ⟨hw,
            [Call.unlock, Call.obGetConfig (hal.OBGetConfig (hal.Unlock s)), Call.lock,
             Call.obGetConfig (hal.OBGetConfig (hal.Lock (hal.Unlock s))),
             Call.obErase HAL_OK,
             Call.obProgram
              ⟨b.OPTIONBYTE_WRP, b.OB_WRPSTATE_DISABLE,
                (hal.OBGetConfig (hal.Lock (hal.Unlock s))).WRPPage
                  ||| b.FLASH_PROTECTED_PAGES,
                b.OB_RDP_LEVEL_0, (hal.OBGetConfig (hal.Lock (hal.Unlock s))).USERConfig⟩
              st]⟩)) := by
  by_cases hg : (FLASH_If_GetWriteProtectionStatus hal b (fresh s)).1 = 0
  · left
    refine ⟨hg, ?_⟩
    simp [FLASH_If_DisableWriteProtection, hg]
  · right
    by_cases he : (hal.OBErase (hal.Lock (hal.Unlock s))).1 = HAL_OK
    · right
      refine ⟨hg, he, _, _, rfl, ?_⟩
      rw [FLASH_If_DisableWriteProtection]
      simp only [ne_eq, hg, not_false_eq_true, if_true]
      simp only [FLASH_If_GetWriteProtectionStatus, HAL_FLASHEx_OBGetConfig,
        HAL_FLASHEx_OBErase, HAL_FLASHEx_OBProgram, HAL_FLASH_Unlock, HAL_FLASH_Lock, fresh,
        he, if_true, List.nil_append, List.cons_append, List.append_assoc]
      split <;> rfl
    · left
      refine ⟨hg, he, ?_⟩
      rw [FLASH_If_DisableWriteProtection]
      simp only [ne_eq, hg, not_false_eq_true, if_true]
      simp only [FLASH_If_GetWriteProtectionStatus, HAL_FLASHEx_OBGetConfig,
        HAL_FLASHEx_OBErase, HAL_FLASH_Unlock, HAL_FLASH_Lock, fresh,
        he, if_false, List.nil_append, List.cons_append, List.append_assoc]

theorem FLASH_If_GetWriteProtectionStatus_log {σ : Type} (hal : HAL σ) (b : Board) (s : σ) :
    (FLASH_If_GetWriteProtectionStatus hal b (fresh s)).2
      = ⟨hal.Lock (hal.Unlock s),
          [Call.unlock, Call.obGetConfig (hal.OBGetConfig (hal.Unlock s)), Call.lock]⟩ := by
  simp [FLASH_If_GetWriteProtectionStatus, HAL_FLASHEx_OBGetConfig, HAL_FLASH_Unlock,
    HAL_FLASH_Lock, fresh]

/-- Claim C6.  In `FLASH_If_DisableWriteProtection`, whenever the option-byte
erase reports a failure, no option-byte program call is made and the call
returns 1 (failure); the call returns 0 only when the option-byte erase and
the option-byte program that follows it both reported `HAL_OK`. -/
theorem FLASH_If_DisableWriteProtection_aborts_on_erase_failure {σ : Type} (hal : HAL σ)
    (b : Board) (s : σ) :
    (∀ st, Call.obErase st ∈ (FLASH_If_DisableWriteProtection hal b (fresh s)).2.log →
      st ≠ HAL_OK →
      (∀ cfg st2,
        Call.obProgram cfg st2 ∉ (FLASH_If_DisableWriteProtection hal b (fresh s)).2.log) ∧
      (FLASH_If_DisableWriteProtection hal b (fresh s)).1 = 1) ∧
    ((FLASH_If_DisableWriteProtection hal b (fresh s)).1 = 0 →
      Call.obErase HAL_OK ∈ (FLASH_If_DisableWriteProtection hal b (fresh s)).2.log ∧
      ∃ cfg,
        Call.obProgram cfg HAL_OK ∈ (FLASH_If_DisableWriteProtection hal b (fresh s)).2.log) := by
  rcases FLASH_If_DisableWriteProtection_cases hal b s with
    ⟨_, h⟩ | ⟨_, he, h⟩ | ⟨_, _, st, hw, _, h⟩
  · rw [h, FLASH_If_GetWriteProtectionStatus_log]
    simp
  · rw [h]
    simp
  · rw [h]
    constructor
    · intro st1 hmem hne
      simp at hmem
      exact absurd hmem hne
    · intro hret
      have hst : st = HAL_OK := by
        by_contra hne
        simp [hne] at hret
      subst hst
      simp

/-- Claim C6 on the simulated controller whose option-byte erase fails: the
log ends with the failed erase, nothing is programmed, the result is 1. -/
theorem FLASH_If_DisableWriteProtection_aborts_on_erase_failure_witness :
    (FLASH_If_DisableWriteProtection (simHAL simBoard) simBoard (fresh simOBEraseFault)).2.log
      = [Call.unlock, Call.obGetConfig ⟨0, 0, 0x303, 0xBB, 0x55⟩, Call.lock,
         Call.obGetConfig ⟨0, 0, 0x303, 0xBB, 0x55⟩, Call.obErase HAL_ERROR] ∧
    ((∀ cfg st2, Call.obProgram cfg st2 ∉
        (FLASH_If_DisableWriteProtection (simHAL simBoard) simBoard
          (fresh simOBEraseFault)).2.log) ∧
      (FLASH_If_DisableWriteProtection (simHAL simBoard) simBoard (fresh simOBEraseFault)).1
        = 1) :=
  ⟨by decide,
    (FLASH_If_DisableWriteProtection_aborts_on_erase_failure (simHAL simBoard) simBoard
      simOBEraseFault).1 HAL_ERROR (by decide) (by decide)⟩

/-- Claim C8 fails on the code: on the simulated controller with no page of
the mask protected, `FLASH_If_GetWriteProtectionStatus()` equals
`FLASH_PROTECTED_PAGES`, and `FLASH_If_DisableWriteProtection` nevertheless
issues the option-byte erase.  Where the locked controller reports the
rejected erase the call returns 1; where it ignores it the call goes on to
the option-byte program and returns 0.  It never returns 2. -/
theorem FLASH_If_DisableWriteProtection_runs_when_status_is_mask :
    ((FLASH_If_GetWriteProtectionStatus (simHAL simBoard) simBoard
        (fresh simForeignProtected)).1 = simBoard.FLASH_PROTECTED_PAGES ∧
      (FLASH_If_DisableWriteProtection (simHAL simBoard) simBoard
        (fresh simForeignProtected)).2.log
        = [Call.unlock, Call.obGetConfig ⟨0, 0, 0x300, 0xBB, 0x55⟩, Call.lock,
           Call.obGetConfig ⟨0, 0, 0x300, 0xBB, 0x55⟩, Call.obErase HAL_ERROR] ∧
      (FLASH_If_DisableWriteProtection (simHAL simBoard) simBoard
        (fresh simForeignProtected)).1 = 1) ∧
    ((FLASH_If_GetWriteProtectionStatus (simHALSilent simBoard) simBoard
        (fresh simForeignProtected)).1 = simBoard.FLASH_PROTECTED_PAGES ∧
      (FLASH_If_DisableWriteProtection (simHALSilent simBoard) simBoard
        (fresh simForeignProtected)).2.log
        = [Call.unlock, Call.obGetConfig ⟨0, 0, 0x300, 0xBB, 0x55⟩, Call.lock,
           Call.obGetConfig ⟨0, 0, 0x300, 0xBB, 0x55⟩, Call.obErase HAL_OK,
           Call.obProgram ⟨1, 0, 0x30F, 0xAA, 0x55⟩ HAL_OK] ∧
      (FLASH_If_DisableWriteProtection (simHALSilent simBoard) simBoard
        (fresh simForeignProtected)).1 = 0) := by
  decide

/-- Claim C8 as amended.  When `FLASH_If_GetWriteProtectionStatus()` is 0
before the call, `FLASH_If_DisableWriteProtection` makes no call beyond those
of the status query (no option-byte erase, no option-byte program), leaves
the option bytes unchanged and does not return 0.  Unlock and lock are
assumed not to change the option bytes. -/
theorem FLASH_If_DisableWriteProtection_skips_when_status_zero {σ : Type} (hal : HAL σ)
    (b : Board) (s : σ)
    (hUnlock : ∀ t, hal.OBGetConfig (hal.Unlock t) = hal.OBGetConfig t)
    (hLock : ∀ t, hal.OBGetConfig (hal.Lock t) = hal.OBGetConfig t)
    (h0 : (FLASH_If_GetWriteProtectionStatus hal b (fresh s)).1 = 0) :
    (FLASH_If_DisableWriteProtection hal b (fresh s)).2.log
      = [Call.unlock, Call.obGetConfig (hal.OBGetConfig s), Call.lock] ∧
    (∀ st, Call.obErase st ∉ (FLASH_If_DisableWriteProtection hal b (fresh s)).2.log) ∧
    (∀ cfg st,
      Call.obProgram cfg st ∉ (FLASH_If_DisableWriteProtection hal b (fresh s)).2.log) ∧
    hal.OBGetConfig (FLASH_If_DisableWriteProtection hal b (fresh s)).2.hw
      = hal.OBGetConfig s ∧
    (FLASH_If_DisableWriteProtection hal b (fresh s)).1 ≠ 0 := by
  rcases FLASH_If_DisableWriteProtection_cases hal b s with
    ⟨_, h⟩ | ⟨hne, _⟩ | ⟨hne, _⟩
  · rw [h, FLASH_If_GetWriteProtectionStatus_log]
    simp [hUnlock, hLock]
  · exact absurd h0 hne
  · exact absurd h0 hne

/-- Claim C8 as amended, on the simulated controller with all four pages of
the mask protected: the status is 0 and the call does nothing. -/
theorem FLASH_If_DisableWriteProtection_skips_when_status_zero_witness :
    (FLASH_If_GetWriteProtectionStatus (simHAL simBoard) simBoard
      (fresh simAllProtected)).1 = 0 ∧
    (FLASH_If_DisableWriteProtection (simHAL simBoard) simBoard (fresh simAllProtected)).2.log
      = [Call.unlock, Call.obGetConfig ((simHAL simBoard).OBGetConfig simAllProtected),
         Call.lock] ∧
    (simHAL simBoard).OBGetConfig
      (FLASH_If_DisableWriteProtection (simHAL simBoard) simBoard
        (fresh simAllProtected)).2.hw
      = (simHAL simBoard).OBGetConfig simAllProtected ∧
    (FLASH_If_DisableWriteProtection (simHAL simBoard) simBoard (fresh simAllProtected)).1
      ≠ 0 := by
  have h := FLASH_If_DisableWriteProtection_skips_when_status_zero (simHAL simBoard)
    simBoard simAllProtected (fun _ => rfl) (fun _ => rfl) (by decide)
  exact ⟨by decide, h.1, h.2.2.2.1, h.2.2.2.2⟩

/-- Claim C9 fails on the code, on the simulated controller with mask `0xF`.
With all four pages of the mask protected the status is 0, so
`FLASH_If_DisableWriteProtection` issues nothing and the status read
afterwards is still 0.  With pages 0 and 1 protected the status is `0xC`; the
option-byte erase is issued after `HAL_FLASH_Lock` without an unlock, the
locked controller does not accept it, and the status read afterwards is
still `0xC`.  Neither is `FLASH_PROTECTED_PAGES`. -/
theorem FLASH_If_DisableWriteProtection_then_status_not_mask :
    simBoard.FLASH_PROTECTED_PAGES = 0xF ∧
    ((FLASH_If_GetWriteProtectionStatus (simHAL simBoard) simBoard
        (fresh simAllProtected)).1 = 0 ∧
      (FLASH_If_DisableWriteProtection (simHAL simBoard) simBoard
        (fresh simAllProtected)).2.log
        = [Call.unlock, Call.obGetConfig ⟨0, 0, 0x30F, 0xBB, 0x55⟩, Call.lock] ∧
      (FLASH_If_GetWriteProtectionStatus (simHAL simBoard) simBoard
        (FLASH_If_DisableWriteProtection (simHAL simBoard) simBoard
          (fresh simAllProtected)).2).1 = 0 ∧
      (FLASH_If_GetWriteProtectionStatus (simHAL simBoard) simBoard
        (FLASH_If_DisableWriteProtection (simHAL simBoard) simBoard
          (fresh simAllProtected)).2).1 ≠ simBoard.FLASH_PROTECTED_PAGES) ∧
    ((FLASH_If_GetWriteProtectionStatus (simHAL simBoard) simBoard (fresh simUsed)).1
        = 0xC ∧
      (FLASH_If_DisableWriteProtection (simHAL simBoard) simBoard (fresh simUsed)).2.log
        = [Call.unlock, Call.obGetConfig ⟨0, 0, 0x303, 0xBB, 0x55⟩, Call.lock,
           Call.obGetConfig ⟨0, 0, 0x303, 0xBB, 0x55⟩, Call.obErase HAL_ERROR] ∧
      (FLASH_If_GetWriteProtectionStatus (simHAL simBoard) simBoard
        (FLASH_If_DisableWriteProtection (simHAL simBoard) simBoard
          (fresh simUsed)).2).1 = 0xC ∧
      (FLASH_If_GetWriteProtectionStatus (simHAL simBoard) simBoard
        (FLASH_If_DisableWriteProtection (simHAL simBoard) simBoard
          (fresh simUsed)).2).1 ≠ simBoard.FLASH_PROTECTED_PAGES) := by
  decide

/-- Claim C9 as amended.  For every prior option-byte configuration for which
`FLASH_If_GetWriteProtectionStatus()` is 0 before the call,
`FLASH_If_DisableWriteProtection` followed by
`FLASH_If_GetWriteProtectionStatus` returns 0 again, which is not
`FLASH_PROTECTED_PAGES` unless the mask is 0.  This holds on every
controller whose unlock and lock do not change the option bytes. -/
theorem FLASH_If_DisableWriteProtection_then_status_zero {σ : Type} (hal : HAL σ)
    (b : Board) (s : σ)
    (hUnlock : ∀ t, hal.OBGetConfig (hal.Unlock t) = hal.OBGetConfig t)
    (hLock : ∀ t, hal.OBGetConfig (hal.Lock t) = hal.OBGetConfig t)
    (h0 : (FLASH_If_GetWriteProtectionStatus hal b (fresh s)).1 = 0) :
    (FLASH_If_GetWriteProtectionStatus hal b
      (FLASH_If_DisableWriteProtection hal b (fresh s)).2).1 = 0 ∧
    (b.FLASH_PROTECTED_PAGES ≠ 0 →
      (FLASH_If_GetWriteProtectionStatus hal b
        (FLASH_If_DisableWriteProtection hal b (fresh s)).2).1
        ≠ b.FLASH_PROTECTED_PAGES) := by
  have hval : ∀ m : Machine σ, (FLASH_If_GetWriteProtectionStatus hal b m).1
      = not32 (hal.OBGetConfig m.hw).WRPPage &&& b.FLASH_PROTECTED_PAGES := by
    intro m
    simp [FLASH_If_GetWriteProtectionStatus, HAL_FLASHEx_OBGetConfig, HAL_FLASH_Unlock,
      hUnlock]
  have hafter : (FLASH_If_GetWriteProtectionStatus hal b
      (FLASH_If_DisableWriteProtection hal b (fresh s)).2).1 = 0 := by
    rcases FLASH_If_DisableWriteProtection_cases hal b s with
      ⟨_, h⟩ | ⟨hne, _⟩ | ⟨hne, _⟩
    · rw [hval, h, FLASH_If_GetWriteProtectionStatus_log]
      rw [hval] at h0
      simpa [fresh, hLock, hUnlock] using h0
    · exact absurd h0 hne
    · exact absurd h0 hne
  refine ⟨hafter, fun hM => ?_⟩
  rw [hafter]
  exact fun h => hM h.symm

/-- Claim C9 as amended, on the simulated controller with all four pages of
the mask `0xF` protected: the status is 0 before the call and 0 after it. -/
theorem FLASH_If_DisableWriteProtection_then_status_zero_witness :
    ((FLASH_If_GetWriteProtectionStatus (simHAL simBoard) simBoard
        (fresh simAllProtected)).1 = 0 ∧
      simBoard.FLASH_PROTECTED_PAGES ≠ 0) ∧
    (FLASH_If_GetWriteProtectionStatus (simHAL simBoard) simBoard
      (FLASH_If_DisableWriteProtection (simHAL simBoard) simBoard
        (fresh simAllProtected)).2).1 = 0 ∧
    (FLASH_If_GetWriteProtectionStatus (simHAL simBoard) simBoard
      (FLASH_If_DisableWriteProtection (simHAL simBoard) simBoard
        (fresh simAllProtected)).2).1 ≠ simBoard.FLASH_PROTECTED_PAGES := by
  have h := FLASH_If_DisableWriteProtection_then_status_zero (simHAL simBoard) simBoard
    simAllProtected (fun _ => rfl) (fun _ => rfl) (by decide)
  exact ⟨⟨by decide, by decide⟩, h.1, h.2 (by decide)⟩

/-- Claim C1 fails on the code.  On the simulated controller, locked before
the call, `FLASH_If_Write` of the buffer `[1, 2]` at `0x800F800` returns 1
when the first word fails to program and 2 when the first word does not
verify; in both runs the last call made is not `HAL_FLASH_Lock` and the
controller is unlocked when the function returns. -/
theorem FLASH_If_Write_failure_returns_unlocked :
    ((simHAL simBoard).isLocked (simProgramFault 0x800F800) = true ∧
      (FLASH_If_Write (simHAL simBoard) simBoard 0x800F800 (bufferOf [1, 2]) 2
        (fresh (simProgramFault 0x800F800))).ret = 1 ∧
      (FLASH_If_Write (simHAL simBoard) simBoard 0x800F800 (bufferOf [1, 2]) 2
        (fresh (simProgramFault 0x800F800))).m.log
        = [Call.unlock, Call.program 2 0x800F800 1 HAL_ERROR] ∧
      (simHAL simBoard).isLocked
        (FLASH_If_Write (simHAL simBoard) simBoard 0x800F800 (bufferOf [1, 2]) 2
          (fresh (simProgramFault 0x800F800))).m.hw = false) ∧
    ((simHAL simBoard).isLocked (simStuckCell 0x800F800) = true ∧
      (FLASH_If_Write (simHAL simBoard) simBoard 0x800F800 (bufferOf [1, 2]) 2
        (fresh (simStuckCell 0x800F800))).ret = 2 ∧
      (FLASH_If_Write (simHAL simBoard) simBoard 0x800F800 (bufferOf [1, 2]) 2
        (fresh (simStuckCell 0x800F800))).m.log
        = [Call.unlock, Call.program 2 0x800F800 1 HAL_OK,
           Call.readWord 0x800F800 0xFFFFFFFF] ∧
      (simHAL simBoard).isLocked
        (FLASH_If_Write (simHAL simBoard) simBoard 0x800F800 (bufferOf [1, 2]) 2
          (fresh (simStuckCell 0x800F800))).m.hw = false) := by
  decide

/-- When the loop of `FLASH_If_Write` returns 0, the last thing it did to the
hardware is `HAL_FLASH_Lock`. -/
theorem writeLoop_ret_zero_locks {σ : Type} (hal : HAL σ) (b : Board) (Data : Nat → Nat) :
    ∀ (r i a : Nat) (m : Machine σ), (writeLoop hal b Data r i a m).ret = 0 →
      ∃ t, (writeLoop hal b Data r i a m).m.hw = hal.Lock t := by
  intro r
  induction r with
  | zero =>
    intro i a m _
    exact ⟨m.hw, by simp [writeLoop, HAL_FLASH_Lock]⟩
  | succ r ih =>
    intro i a m hret
    rw [writeLoop] at hret ⊢
    by_cases hb : a ≤ sub32 b.USER_FLASH_END_ADDRESS 4
    · by_cases hp : (hal.Program b.FLASH_TYPEPROGRAM_WORD a (Data i) m.hw).1 = HAL_OK
      · by_cases hv : hal.readWord (hal.Program b.FLASH_TYPEPROGRAM_WORD a (Data i) m.hw).2 a
            = Data i
        · simp only [hb, HAL_FLASH_Program, readFlash, hp, hv, if_true, ne_eq,
            not_true_eq_false, if_false] at hret ⊢
          exact ih _ _ _ hret
        · simp [hb, HAL_FLASH_Program, readFlash, hp, hv] at hret
      · simp [hb, HAL_FLASH_Program, hp] at hret
    · simp only [hb, if_false]
      exact ⟨m.hw, by simp [HAL_FLASH_Lock]⟩

/-- What holds of claim C1: on hardware whose lock call leaves the controller
locked and whose option-byte calls do not touch the lock bit,
`FLASH_If_Init`, `FLASH_If_Erase`, `FLASH_If_GetWriteProtectionStatus` and
`FLASH_If_DisableWriteProtection` return with the controller locked, and so
does `FLASH_If_Write` when it returns 0. -/
theorem operations_return_locked {σ : Type} (hal : HAL σ) (b : Board) (s : σ)
    (hLock : ∀ t, hal.isLocked (hal.Lock t) = true)
    (hOBErase : ∀ t, hal.isLocked (hal.OBErase t).2 = hal.isLocked t)
    (hOBProgram : ∀ cfg t, hal.isLocked (hal.OBProgram cfg t).2 = hal.isLocked t) :
    hal.isLocked (FLASH_If_Init hal b (fresh s)).hw = true ∧
    (∀ StartSector, hal.isLocked (FLASH_If_Erase hal b StartSector (fresh s)).2.hw = true) ∧
    hal.isLocked (FLASH_If_GetWriteProtectionStatus hal b (fresh s)).2.hw = true ∧
    hal.isLocked (FLASH_If_DisableWriteProtection hal b (fresh s)).2.hw = true ∧
    (∀ A Data n, (FLASH_If_Write hal b A Data n (fresh s)).ret = 0 →
      hal.isLocked (FLASH_If_Write hal b A Data n (fresh s)).m.hw = true) := by
  refine ⟨?_, ?_, ?_, ?_, ?_⟩
  · simp [FLASH_If_Init, HAL_FLASH_Lock, hLock]
  · intro StartSector
    simp only [FLASH_If_Erase, HAL_FLASH_Lock]
    split <;> simp [hLock]
  · rw [FLASH_If_GetWriteProtectionStatus_log]
    exact hLock _
  · rcases FLASH_If_DisableWriteProtection_cases hal b s with
      ⟨_, h⟩ | ⟨_, _, h⟩ | ⟨_, _, st, hw, hpr, h⟩
    · rw [h, FLASH_If_GetWriteProtectionStatus_log]
      exact hLock _
    · rw [h]
      simp [hOBErase, hLock]
    · rw [h]
      have hpr2 := congrArg Prod.snd hpr
      simp only at hpr2
      simp only [hpr2, hOBProgram, hOBErase, hLock]
  · intro A Data n hret
    obtain ⟨t, ht⟩ := writeLoop_ret_zero_locks hal b Data n 0 A _ hret
    rw [FLASH_If_Write, ht]
    exact hLock t

end FlashIf
